/-
Verification of the Vector-Quant box-breakout backtesting engine
(src/quant_engine.py and src/run_optimizer.py).

Modelling conventions.
* Python/pandas floats are modelled as exact rationals.
* A pandas cell that may hold NaN is modelled as `Val := Option ℚ`, with
  `none` standing for NaN.  Following numpy semantics: every ordering
  comparison against NaN is false, `NaN != 0` is true, and arithmetic
  propagates NaN.  Division by zero produces no finite value and is
  modelled as `none`.
* A DataFrame column is a list aligned with the bar index; `shift(1)`
  prepends a NaN and drops the last entry; `rolling(w)` with the default
  `min_periods = w` yields NaN until the window is full.
* A Python dict result with optional keys is modelled as a structure whose
  optional fields are `Option`-valued; `none` models an absent key.
-/
import Mathlib

set_option maxHeartbeats 1000000

/-- A pandas cell: `none` is NaN. -/
abbrev Val := Option ℚ

/-- numpy `<` on possibly-NaN cells: any comparison with NaN is false. -/
def vLt : Val → Val → Bool
  | some a, some b => decide (a < b)
  | _, _ => false

/-- numpy `>` on possibly-NaN cells. -/
def vGt : Val → Val → Bool
  | some a, some b => decide (b < a)
  | _, _ => false

/-- numpy `<=` on possibly-NaN cells. -/
def vLe : Val → Val → Bool
  | some a, some b => decide (a ≤ b)
  | _, _ => false

/-- numpy `!= 0`: note that `NaN != 0` is TRUE. -/
def vNe0 : Val → Bool
  | some a => decide (a ≠ 0)
  | none => true

def vAdd : Val → Val → Val
  | some a, some b => some (a + b)
  | _, _ => none

def vSub : Val → Val → Val
  | some a, some b => some (a - b)
  | _, _ => none

def vMul : Val → Val → Val
  | some a, some b => some (a * b)
  | _, _ => none

/-- Division; a zero divisor yields no finite float, modelled as `none`. -/
def vDiv : Val → Val → Val
  | some a, some b => if b = 0 then none else some (a / b)
  | _, _ => none

/-- One OHLC bar.  `run_strategy` never reads the `open` column, so only
the `high`, `low` and `close` columns are modelled. -/
structure Bar where
  high : ℚ
  low : ℚ
  close : ℚ
deriving DecidableEq

/-- The `StrategyConfig` dataclass of src/quant_engine.py.  The window is a
bar count (pandas rejects negative windows, which are outside the model);
the remaining fields are float fractions. -/
structure StrategyConfig where
  lookback_window : ℕ
  profit_target_pct : ℚ
  stop_loss_pct : ℚ
  fee_per_trade : ℚ
deriving DecidableEq

def highs (data : List Bar) : List ℚ := data.map Bar.high

def lows (data : List Bar) : List ℚ := data.map Bar.low

def closes (data : List Bar) : List ℚ := data.map Bar.close

/-- Max of a list of floats; NaN on an empty list (pandas rolling max of an
empty window). -/
def listMaxV : List ℚ → Val
  | [] => none
  | x :: xs => some (xs.foldl max x)

def listMinV : List ℚ → Val
  | [] => none
  | x :: xs => some (xs.foldl min x)

/-- `series.rolling(window=w).max()`: entry `j` is the max of entries
`[j-w+1, j]` once `j+1 ≥ w` observations exist, NaN before that
(`min_periods` defaults to the window size). -/
def rollingMax (w : ℕ) (xs : List ℚ) : List Val :=
  (List.range xs.length).map fun j =>
    if j + 1 < w then none else listMaxV ((xs.take (j + 1)).drop (j + 1 - w))

def rollingMin (w : ℕ) (xs : List ℚ) : List Val :=
  (List.range xs.length).map fun j =>
    if j + 1 < w then none else listMinV ((xs.take (j + 1)).drop (j + 1 - w))

/-- `series.shift(1)`: NaN in front, last entry dropped, length kept. -/
def shift1 (xs : List Val) : List Val := (none :: xs).take xs.length

/-- Column `box_high` of `run_strategy`:
`df['high'].rolling(window=w).max().shift(1)`. -/
def box_high (data : List Bar) (w : ℕ) : List Val :=
  shift1 (rollingMax w (highs data))

/-- Column `box_low` of `run_strategy`:
`df['low'].rolling(window=w).min().shift(1)`. -/
def box_low (data : List Bar) (w : ℕ) : List Val :=
  shift1 (rollingMin w (lows data))

def zipWith3 (f : α → β → γ → δ) : List α → List β → List γ → List δ
  | a :: as, b :: bs, c :: cs => f a b c :: zipWith3 f as bs cs
  | _, _, _ => []

/-- Column `signal`: first `np.where(close > box_high, 1, 0)`, then the
overwrite `np.where(close < box_low, -1, signal)`. -/
def signal (data : List Bar) (w : ℕ) : List Int :=
  zipWith3 (fun c bl s0 => if vLt (some c) bl then -1 else s0)
    (closes data) (box_low data w)
    (List.zipWith (fun c bh => if vGt (some c) bh then (1 : Int) else 0)
      (closes data) (box_high data w))

/-- `df['close'].pct_change()`: NaN at index 0, `close[i]/close[i-1] - 1`
afterwards. -/
def pct_change (cs : List ℚ) : List Val :=
  (none :: List.zipWith (fun prev cur => some (cur / prev - 1)) cs cs.tail).take cs.length

/-- An int64 column viewed as a float column (no NaN yet). -/
def intCol (l : List Int) : List Val := l.map fun s : Int => some (s : ℚ)

/-- Pre-capping column `strategy_return`:
`df['signal'].shift(1) * df['pct_change']` (the shift turns the int column
into a float column with NaN at index 0). -/
def strategy_return_raw (data : List Bar) (cfg : StrategyConfig) : List Val :=
  List.zipWith vMul
    (shift1 (intCol (signal data cfg.lookback_window)))
    (pct_change (closes data))

/-- `np.where(r < -stop_loss_pct, -stop_loss_pct, r)` on one cell. -/
def capSL (sl : ℚ) (v : Val) : Val :=
  if vLt v (some (-sl)) then some (-sl) else v

/-- `np.where(r > profit_target_pct, profit_target_pct, r)` on one cell. -/
def capTP (tp : ℚ) (v : Val) : Val :=
  if vGt v (some tp) then some tp else v

/-- The two risk caps of `run_strategy`, stop-loss clamp first. -/
def applyCaps (cfg : StrategyConfig) (rs : List Val) : List Val :=
  (rs.map (capSL cfg.stop_loss_pct)).map (capTP cfg.profit_target_pct)

/-- `np.where(r != 0, r - fee_per_trade, r)` on one cell. -/
def feeAdj (fee : ℚ) (v : Val) : Val :=
  if vNe0 v then vSub v (some fee) else v

/-- Final column `strategy_return` of `run_strategy`: lagged return, both
caps, then the fee step. -/
def strategy_return (data : List Bar) (cfg : StrategyConfig) : List Val :=
  (applyCaps cfg (strategy_return_raw data cfg)).map (feeAdj cfg.fee_per_trade)

/-- The derived columns of the DataFrame returned by `run_strategy`. -/
structure Frame where
  box_high : List Val
  box_low : List Val
  signal : List Int
  pct_change : List Val
  strategy_return : List Val
deriving DecidableEq

def run_strategyFrame (data : List Bar) (cfg : StrategyConfig) : Frame :=
  ⟨box_high data cfg.lookback_window, box_low data cfg.lookback_window,
    signal data cfg.lookback_window, pct_change (closes data),
    strategy_return data cfg⟩

/-- `QuantEngine.run_strategy`: raises iff `self.data is None`; this is the
only validation the method performs. -/
def run_strategy (data : Option (List Bar)) (cfg : StrategyConfig) :
    Except String Frame :=
  match data with
  | none => .error "Data not loaded. Run generate_dummy_data() first."
  | some d => .ok (run_strategyFrame d cfg)

/-- Python 3 `round` to an integer: nearest, ties to even. -/
def roundHalfEven (y : ℚ) : ℤ :=
  let f := ⌊y⌋
  let r := y - (f : ℚ)
  if r < 1 / 2 then f
  else if 1 / 2 < r then f + 1
  else if f % 2 = 0 then f else f + 1

/-- Python `round(x, n)`. -/
def roundTo (n : ℕ) (x : ℚ) : ℚ := (roundHalfEven (x * 10 ^ n) : ℚ) / 10 ^ n

def vRound (n : ℕ) : Val → Val
  | some a => some (roundTo n a)
  | none => none

/-- pandas `Series.mean()` with the default `skipna=True`. -/
def meanV (l : List Val) : ℚ :=
  (l.filterMap id).sum / (l.filterMap id).length

/-- `df_results[df_results['strategy_return'] != 0]['strategy_return']`:
the "trades".  NaN cells pass the `!= 0` filter. -/
def tradesOf (sr : List Val) : List Val := sr.filter vNe0

/-- `trades[trades > 0]`: NaN cells never pass. -/
def winningOf (sr : List Val) : List Val :=
  (tradesOf sr).filter fun v => vGt v (some 0)

/-- `trades[trades <= 0]`: NaN cells never pass. -/
def losingOf (sr : List Val) : List Val :=
  (tradesOf sr).filter fun v => vLe v (some 0)

/-- `Series.cumprod()` with a running accumulator; NaN propagates to every
later entry. -/
def cumprodFrom : Val → List Val → List Val
  | _, [] => []
  | acc, v :: vs =>
      let a := vMul acc v
      a :: cumprodFrom a vs

/-- `(1 + df_results['strategy_return']).cumprod()`. -/
def cumOf (sr : List Val) : List Val :=
  cumprodFrom (some 1) (sr.map (vAdd (some 1)))

/-- `Series.cummax()`: a NaN cell stays NaN and does not reset the running
maximum. -/
def cummaxFrom : Option ℚ → List Val → List Val
  | _, [] => []
  | m, none :: vs => none :: cummaxFrom m vs
  | m, some a :: vs =>
      let m2 := match m with | none => a | some b => max b a
      some m2 :: cummaxFrom (some m2) vs

def peakOf (sr : List Val) : List Val := cummaxFrom none (cumOf sr)

/-- One cell of `(cumulative_returns - peak) / peak`. -/
def ddCell (c p : Val) : Val := vDiv (vSub c p) p

def drawdownOf (sr : List Val) : List Val :=
  List.zipWith ddCell (cumOf sr) (peakOf sr)

/-- `Series.min()` with the default `skipna=True`; NaN when no value. -/
def vMinList (l : List Val) : Val := listMinV (l.filterMap id)

/-- `drawdown.min()`. -/
def maxDrawdownOf (sr : List Val) : Val := vMinList (drawdownOf sr)

/-- The dict returned by `QuantEngine.calculate_metrics`.  The degenerate
zero-trades branch returns a dict without the drawdown and net-profit
keys; an absent key is modelled as `none` in the corresponding
`Option`-valued field. -/
structure Metrics where
  total_trades : ℕ
  win_rate : ℚ
  expectancy : ℚ
  max_drawdown_pct : Option Val
  net_profit_pct : Option Val
deriving DecidableEq

/-- `QuantEngine.calculate_metrics`, applied to the `strategy_return`
column of the results frame (the only column it reads). -/
def calculate_metrics (sr : List Val) : Metrics :=
  let trades := tradesOf sr
  if trades.isEmpty then ⟨0, 0, 0, none, none⟩
  else
    let total_trades := trades.length
    let winning := winningOf sr
    let win_rate : ℚ := winning.length / total_trades
    let avg_win : ℚ := if 0 < winning.length then meanV winning else 0
    let losing := losingOf sr
    let avg_loss : ℚ := if 0 < losing.length then |meanV losing| else 0
    let expectancy := win_rate * avg_win - (1 - win_rate) * avg_loss
    ⟨total_trades,
      roundTo 2 (win_rate * 100),
      roundTo 4 (expectancy * 100),
      some (vRound 2 (vMul (maxDrawdownOf sr) (some 100))),
      some (vRound 2 (vMul (vSub (((cumOf sr).getLast?).getD none) (some 1)) (some 100)))⟩

/-- One row of `results_log` in src/run_optimizer.py. -/
structure GridRow where
  window : ℕ
  stop_loss : ℚ
  take_profit : ℚ
  win_rate : ℚ
  trades : ℕ
  drawdown : Val
  expectancy : ℚ
deriving DecidableEq

/-- `itertools.product(lookback_windows, stop_losses, take_profits)` in
enumeration order (outermost dimension first). -/
def combinations (ws : List ℕ) (ss ts : List ℚ) : List (ℕ × ℚ × ℚ) :=
  ws.flatMap fun w => ss.flatMap fun s => ts.map fun t => (w, s, t)

/-- One iteration of the optimizer loop: build the config (default fee
0.0002), run the backtest, reduce to metrics, and build the result row.
`metrics['max_drawdown_pct']` raises a KeyError when the reducer returned
its degenerate branch, hence the `Except`. -/
def evalCombo (data : List Bar) (p : ℕ × ℚ × ℚ) : Except String GridRow :=
  let cfg : StrategyConfig := ⟨p.1, p.2.2, p.2.1, 0.0002⟩
  let m := calculate_metrics ((run_strategyFrame data cfg).strategy_return)
  match m.max_drawdown_pct with
  | none => .error "KeyError: max_drawdown_pct"
  | some dd => .ok ⟨p.1, p.2.1, p.2.2, m.win_rate, m.total_trades, dd, m.expectancy⟩

/-- The optimizer's `for`-loop over the combinations, in order; the first
raised error aborts the sweep. -/
def runSweep (data : List Bar) : List (ℕ × ℚ × ℚ) → Except String (List GridRow)
  | [] => .ok []
  | p :: ps =>
      match evalCombo data p with
      | .error e => .error e
      | .ok r =>
          match runSweep data ps with
          | .error e => .error e
          | .ok rs => .ok (r :: rs)

instance gridRowGeDec :
    DecidableRel fun a b : GridRow => b.win_rate ≤ a.win_rate :=
  fun a b => inferInstanceAs (Decidable (b.win_rate ≤ a.win_rate))

/-- `results_df.sort_values(by="WinRate", ascending=False)`.  The rows are
re-ordered so that win rates are descending; pandas' default sort kind is
quicksort, so the relative order of tied rows is implementation-defined
and this model fixes one admissible order. -/
def sortOutput (rows : List GridRow) : List GridRow :=
  List.insertionSort (fun a b => b.win_rate ≤ a.win_rate) rows

/-- `main` of src/run_optimizer.py, parameterized by the price data and the
three parameter grids: sweep every combination, then rank by win rate. -/
def optimizer_output (data : List Bar) (ws : List ℕ) (ss ts : List ℚ) :
    Except String (List GridRow) :=
  match runSweep data (combinations ws ss ts) with
  | .error e => .error e
  | .ok rows => .ok (sortOutput rows)

/-- The parameter tuple stored in a result row. -/
def paramsOf (r : GridRow) : ℕ × ℚ × ℚ := (r.window, r.stop_loss, r.take_profit)

/-- Spec-side predicate: `m` is the maximum of the `high` values over bar
indices `[lo, hi)`. -/
def IsMaxHigh (data : List Bar) (lo hi : ℕ) (m : ℚ) : Prop :=
  (∀ j b, lo ≤ j → j < hi → data.get? j = some b → b.high ≤ m) ∧
  (∃ j b, lo ≤ j ∧ j < hi ∧ data.get? j = some b ∧ b.high = m)

/-- Spec-side predicate: `m` is the minimum of the `low` values over bar
indices `[lo, hi)`. -/
def IsMinLow (data : List Bar) (lo hi : ℕ) (m : ℚ) : Prop :=
  (∀ j b, lo ≤ j → j < hi → data.get? j = some b → m ≤ b.low) ∧
  (∃ j b, lo ≤ j ∧ j < hi ∧ data.get? j = some b ∧ b.low = m)

/-- A defined (non-NaN) bar return above -100% (prices are strictly
positive, so raw bar returns always exceed -1). -/
def goodRet : Val → Bool
  | none => false
  | some q => decide (0 < 1 + q)

/-- A well-formed strategy return series: non-empty, NaN-free, every
return above -100%. -/
def WellFormedReturns (rs : List Val) : Prop :=
  rs ≠ [] ∧ ∀ v ∈ rs, goodRet v = true

/-- Two-bar series used as concrete input for the signal claims. -/
def dataTwoBars : List Bar := [⟨2, 1, 3/2⟩, ⟨5, 4, 3⟩]

/-- Three-bar series used as concrete input for the simulator claims. -/
def dataThreeBars : List Bar := [⟨1, 1, 1⟩, ⟨2, 2, 2⟩, ⟨3, 3, 3⟩]

/-- One-bar series used as concrete input for the pipeline claims. -/
def dataOneBar : List Bar := [⟨1, 1, 1⟩]

/-- A benign config (window 1, caps 1%, no fee). -/
def cfgBase : StrategyConfig := ⟨1, 1/100, 1/100, 0⟩

/-- A precondition-violating config: the fee is negative. -/
def cfgNegFee : StrategyConfig := ⟨1, 1/100, 1/100, -(1/100)⟩

/-! ### Pointwise lemmas about the list combinators -/

theorem get?_take_eq (l : List α) (n i : ℕ) :
    (l.take n).get? i = if i < n then l.get? i else none := by
  by_cases h : i < n
  · rw [if_pos h, List.get?_take h]
  · rw [if_neg h]
    apply List.get?_len_le
    have := l.length_take n
    omega

theorem get?_zipWith_eq (f : α → β → γ) :
    ∀ (as : List α) (bs : List β) (i : ℕ),
      (List.zipWith f as bs).get? i =
        (as.get? i).bind fun a => (bs.get? i).map fun b => f a b
  | [], _, _ => by simp
  | _ :: _, [], _ => by simp
  | _ :: _, _ :: _, 0 => by simp
  | _ :: as, _ :: bs, (i + 1) => by simpa using get?_zipWith_eq f as bs i

theorem get?_zipWith3_eq (f : α → β → γ → δ) :
    ∀ (as : List α) (bs : List β) (cs : List γ) (i : ℕ),
      (zipWith3 f as bs cs).get? i =
        (as.get? i).bind fun a => (bs.get? i).bind fun b =>
          (cs.get? i).map fun c => f a b c
  | [], _, _, _ => by simp [zipWith3]
  | _ :: _, [], _, _ => by simp [zipWith3]
  | _ :: _, _ :: _, [], _ => by simp [zipWith3]
  | _ :: _, _ :: _, _ :: _, 0 => by simp [zipWith3]
  | _ :: as, _ :: bs, _ :: cs, (i + 1) => by
      simpa [zipWith3] using get?_zipWith3_eq f as bs cs i

theorem zipWith3_length (f : α → β → γ → δ) :
    ∀ (as : List α) (bs : List β) (cs : List γ),
      (zipWith3 f as bs cs).length = min as.length (min bs.length cs.length)
  | [], _, _ => by simp [zipWith3]
  | _ :: _, [], _ => by simp [zipWith3]
  | _ :: _, _ :: _, [] => by simp [zipWith3]
  | _ :: as, _ :: bs, _ :: cs => by
      simp [zipWith3, zipWith3_length f as bs cs]; omega

theorem shift1_length (xs : List Val) : (shift1 xs).length = xs.length := by
  simp [shift1]

theorem get?_shift1_zero (xs : List Val) (h : xs ≠ []) :
    (shift1 xs).get? 0 = some none := by
  have : 0 < xs.length := List.length_pos.2 h
  simp [shift1, get?_take_eq, this]

theorem get?_shift1_succ (xs : List Val) (i : ℕ) (h : i + 1 < xs.length) :
    (shift1 xs).get? (i + 1) = xs.get? i := by
  simp [shift1, get?_take_eq, h]

theorem rollingMax_length (w : ℕ) (xs : List ℚ) :
    (rollingMax w xs).length = xs.length := by
  simp [rollingMax]

theorem rollingMin_length (w : ℕ) (xs : List ℚ) :
    (rollingMin w xs).length = xs.length := by
  simp [rollingMin]

theorem box_high_length (data : List Bar) (w : ℕ) :
    (box_high data w).length = data.length := by
  simp [box_high, shift1_length, rollingMax_length, highs]

theorem box_low_length (data : List Bar) (w : ℕ) :
    (box_low data w).length = data.length := by
  simp [box_low, shift1_length, rollingMin_length, lows]

theorem signal_length (data : List Bar) (w : ℕ) :
    (signal data w).length = data.length := by
  simp [signal, zipWith3_length, List.length_zipWith, box_high_length,
    box_low_length, closes]

theorem pct_change_length (cs : List ℚ) : (pct_change cs).length = cs.length := by
  cases cs with
  | nil => rfl
  | cons c t =>
      simp only [pct_change, List.length_take, List.length_cons,
        List.length_zipWith, List.tail_cons]
      omega

theorem pct_change_get?_zero (cs : List ℚ) (h : cs ≠ []) :
    (pct_change cs).get? 0 = some none := by
  have : 0 < cs.length := List.length_pos.2 h
  simp [pct_change, get?_take_eq, this]

theorem pct_change_get?_succ (cs : List ℚ) (i : ℕ) (h : i + 1 < cs.length) :
    (pct_change cs).get? (i + 1) =
      (cs.get? i).bind fun p => (cs.get? (i + 1)).map fun c => some (c / p - 1) := by
  cases cs with
  | nil => simp at h
  | cons c0 rest =>
      simp only [pct_change, get?_take_eq, h, if_pos, List.get?_cons_succ,
        get?_zipWith_eq, List.tail_cons]

theorem strategy_return_raw_length (data : List Bar) (cfg : StrategyConfig) :
    (strategy_return_raw data cfg).length = data.length := by
  rw [strategy_return_raw, List.length_zipWith, shift1_length]
  simp [intCol, signal_length, pct_change_length, closes]

theorem strategy_return_length (data : List Bar) (cfg : StrategyConfig) :
    (strategy_return data cfg).length = data.length := by
  simp [strategy_return, applyCaps, strategy_return_raw_length]

/-! ### C9: idempotence of the two-clamp risk cap -/

theorem cap_cell_idem (sl tp : ℚ) (v : Val) :
    capTP tp (capSL sl (capTP tp (capSL sl v))) = capTP tp (capSL sl v) := by
  cases v with
  | none => rfl
  | some a =>
      simp only [capSL, capTP, vLt, vGt, decide_eq_true_eq]
      split_ifs <;> simp_all <;> linarith

/-- C9: the stop-loss/profit-target clamp pass of `run_strategy` is
idempotent: re-applying it to an already-clamped series is a no-op
(elementwise, NaN cells included). -/
theorem risk_caps_idempotent (cfg : StrategyConfig) (rs : List Val) :
    applyCaps cfg (applyCaps cfg rs) = applyCaps cfg rs := by
  unfold applyCaps
  induction rs with
  | nil => rfl
  | cons v vs ih =>
      simp only [List.map_cons]
      rw [cap_cell_idem]
      exact congrArg _ (by simpa only [List.map_cons] using ih)

/-! ### C7: the degenerate zero-trades branch of the reducer -/

/-- C7: when the non-zero-return filter leaves no trades,
`calculate_metrics` returns exactly `{total_trades: 0, win_rate: 0,
expectancy: 0}`, with the drawdown and net-profit keys absent. -/
theorem metrics_on_no_trades (sr : List Val) (h : tradesOf sr = []) :
    calculate_metrics sr = ⟨0, 0, 0, none, none⟩ := by
  simp [calculate_metrics, h]

theorem metrics_on_no_trades_witness :
    tradesOf [some 0, some 0] = [] ∧
      calculate_metrics [some 0, some 0] = ⟨0, 0, 0, none, none⟩ :=
  ⟨by norm_num [tradesOf, vNe0],
    metrics_on_no_trades _ (by norm_num [tradesOf, vNe0])⟩

/-! ### C5: input validation -/

/-- Counterexample to C5: the pipeline accepts an empty price series and a
negative fee without any error, and returns numeric results (with the
negative fee silently increasing the capped return from 1/100 to 1/50). -/
theorem run_strategy_accepts_invalid_inputs :
    run_strategy (some []) cfgNegFee = .ok ⟨[], [], [], [], []⟩ ∧
      run_strategy (some dataThreeBars) cfgNegFee =
        .ok (run_strategyFrame dataThreeBars cfgNegFee) ∧
      (strategy_return dataThreeBars cfgNegFee).get? 2 = some (some (1 / 50)) := by
  refine ⟨rfl, rfl, ?_⟩
  norm_num [strategy_return, strategy_return_raw, signal, box_high, box_low,
    rollingMax, rollingMin, shift1, pct_change, closes, highs, lows,
    dataThreeBars, cfgNegFee, applyCaps, capSL, capTP, feeAdj, vMul, vLt, vGt, intCol,
    vNe0, vSub, listMaxV, listMinV, zipWith3, List.range_succ]

/-- C5 amended: `run_strategy` fails fast only for the unloaded-data
precondition (`self.data is None`); every loaded input — including an
empty series and negative fee or stop-loss/profit-target fractions —
is accepted silently and yields a numeric result. -/
theorem run_strategy_no_input_validation (cfg : StrategyConfig) (d : List Bar) :
    run_strategy none cfg = .error "Data not loaded. Run generate_dummy_data() first." ∧
      ∃ fr, run_strategy (some d) cfg = .ok fr :=
  ⟨rfl, ⟨_, rfl⟩⟩

/-! ### C3: the lagged-return formula and the NaN at bar 0 -/

/-- Counterexample to C3: at bar 0 the code's strategy return is NaN
(`signal.shift(1)` and `pct_change` are both NaN there), not 0. -/
theorem bar0_strategy_return_is_nan :
    (strategy_return_raw dataThreeBars cfgBase).get? 0 = some none ∧
      (strategy_return dataThreeBars cfgBase).get? 0 = some none ∧
      some (none : Val) ≠ some (some (0 : ℚ)) := by
  refine ⟨?_, ?_, by simp⟩ <;>
    norm_num [strategy_return, strategy_return_raw, signal, box_high, box_low,
      rollingMax, rollingMin, shift1, pct_change, closes, highs, lows,
      dataThreeBars, cfgBase, applyCaps, capSL, capTP, feeAdj, vMul, vLt, vGt, intCol,
      vNe0, vSub, listMaxV, listMinV, zipWith3, List.range_succ]

theorem get?_drop_eq (l : List α) : ∀ (a i : ℕ), (l.drop a).get? i = l.get? (a + i) := by
  induction l with
  | nil => intro a i; simp
  | cons x t ih =>
      intro a i
      cases a with
      | zero => simp
      | succ a =>
          rw [List.drop_succ_cons, ih a i]
          simp [Nat.succ_add]

theorem intCol_get? (l : List Int) (i : ℕ) :
    (intCol l).get? i = (l.get? i).map fun s : Int => some (s : ℚ) := by
  simp [intCol, List.get?_map]

theorem intCol_length (l : List Int) : (intCol l).length = l.length := by
  simp [intCol]

/-- Bar 0 of the pre-capping strategy return column is NaN: both
`signal.shift(1)` and `pct_change` are NaN there. -/
theorem strategy_return_raw_get?_zero (data : List Bar) (cfg : StrategyConfig)
    (h : data ≠ []) : (strategy_return_raw data cfg).get? 0 = some none := by
  have hlen : 0 < data.length := List.length_pos.2 h
  have h1 : (shift1 (intCol (signal data cfg.lookback_window))).get? 0 = some none := by
    apply get?_shift1_zero
    intro hnil
    have hl := congrArg List.length hnil
    rw [intCol_length, signal_length, List.length_nil] at hl
    omega
  have h2 : (pct_change (closes data)).get? 0 = some none := by
    apply pct_change_get?_zero
    intro hnil
    have hl := congrArg List.length hnil
    rw [List.length_nil] at hl
    simp only [closes, List.length_map] at hl
    omega
  rw [strategy_return_raw, get?_zipWith_eq, h1, h2]
  rfl

/-- NaN cells pass through both caps and the fee step unchanged. -/
theorem post_steps_keep_nan (cfg : StrategyConfig) :
    feeAdj cfg.fee_per_trade (capTP cfg.profit_target_pct
      (capSL cfg.stop_loss_pct none)) = none := rfl

/-- Bar 0 of the final strategy return column is NaN. -/
theorem strategy_return_get?_zero (data : List Bar) (cfg : StrategyConfig)
    (h : data ≠ []) : (strategy_return data cfg).get? 0 = some none := by
  rw [strategy_return, applyCaps, List.get?_map, List.get?_map, List.get?_map,
    strategy_return_raw_get?_zero data cfg h]
  rfl

/-- C3 amended: at every bar `i+1` the pre-capping strategy return is
`signal[i] * (close[i+1]/close[i] - 1)`; at bar 0 it is NaN (undefined),
not 0. -/
theorem lagged_return_formula (data : List Bar) (cfg : StrategyConfig) :
    (data ≠ [] → (strategy_return_raw data cfg).get? 0 = some none) ∧
      ∀ i, i + 1 < data.length →
        ∃ s p c, (signal data cfg.lookback_window).get? i = some s ∧
          (closes data).get? i = some p ∧
          (closes data).get? (i + 1) = some c ∧
          (strategy_return_raw data cfg).get? (i + 1) =
            some (some ((s : ℚ) * (c / p - 1))) := by
  refine ⟨strategy_return_raw_get?_zero data cfg, ?_⟩
  intro i hi
  have hsig : i < (signal data cfg.lookback_window).length := by
    rw [signal_length]; omega
  have hclo : i + 1 < (closes data).length := by
    simp [closes]; omega
  obtain ⟨s, hs⟩ : ∃ s, (signal data cfg.lookback_window).get? i = some s :=
    ⟨_, List.get?_eq_get hsig⟩
  obtain ⟨p, hp⟩ : ∃ p, (closes data).get? i = some p :=
    ⟨_, List.get?_eq_get (by omega)⟩
  obtain ⟨c, hc⟩ : ∃ c, (closes data).get? (i + 1) = some c :=
    ⟨_, List.get?_eq_get hclo⟩
  refine ⟨s, p, c, hs, hp, hc, ?_⟩
  have hsh : (shift1 (intCol (signal data cfg.lookback_window))).get? (i + 1) =
      some (some (s : ℚ)) := by
    rw [get?_shift1_succ _ _ (by rw [intCol_length, signal_length]; omega),
      intCol_get?, hs]
    rfl
  have hpc : (pct_change (closes data)).get? (i + 1) = some (some (c / p - 1)) := by
    rw [pct_change_get?_succ _ _ hclo, hp, hc]
    rfl
  rw [strategy_return_raw, get?_zipWith_eq, hsh, hpc]
  rfl

theorem lagged_return_formula_witness :
    ((strategy_return_raw dataThreeBars cfgBase).get? 0 = some none) ∧
      (∃ s p c, (signal dataThreeBars cfgBase.lookback_window).get? 1 = some s ∧
        (closes dataThreeBars).get? 1 = some p ∧
        (closes dataThreeBars).get? 2 = some c ∧
        (strategy_return_raw dataThreeBars cfgBase).get? 2 =
          some (some ((s : ℚ) * (c / p - 1)))) :=
  ⟨(lagged_return_formula dataThreeBars cfgBase).1 (by simp [dataThreeBars]),
    (lagged_return_formula dataThreeBars cfgBase).2 1 (by simp [dataThreeBars])⟩

/-! ### The rolling box: max/min characterization -/

theorem foldl_max_spec (xs : List ℚ) :
    ∀ x : ℚ, xs.foldl max x ∈ x :: xs ∧ ∀ y ∈ x :: xs, y ≤ xs.foldl max x := by
  induction xs with
  | nil => intro x; simp
  | cons z zs ih =>
      intro x
      obtain ⟨hmem, hub⟩ := ih (max x z)
      rw [List.foldl_cons]
      constructor
      · rcases List.mem_cons.1 hmem with h | h
        · rcases max_choice x z with hc | hc
          · rw [h, hc]; exact List.mem_cons_self _ _
          · rw [h, hc]; exact List.mem_cons_of_mem _ (List.mem_cons_self _ _)
        · exact List.mem_cons_of_mem _ (List.mem_cons_of_mem _ h)
      · intro y hy
        rcases List.mem_cons.1 hy with rfl | hy
        · exact le_trans (le_max_left y z) (hub _ (List.mem_cons_self _ _))
        · rcases List.mem_cons.1 hy with rfl | hy
          · exact le_trans (le_max_right x y) (hub _ (List.mem_cons_self _ _))
          · exact hub y (List.mem_cons_of_mem _ hy)

theorem foldl_min_spec (xs : List ℚ) :
    ∀ x : ℚ, xs.foldl min x ∈ x :: xs ∧ ∀ y ∈ x :: xs, xs.foldl min x ≤ y := by
  induction xs with
  | nil => intro x; simp
  | cons z zs ih =>
      intro x
      obtain ⟨hmem, hlb⟩ := ih (min x z)
      rw [List.foldl_cons]
      constructor
      · rcases List.mem_cons.1 hmem with h | h
        · rcases min_choice x z with hc | hc
          · rw [h, hc]; exact List.mem_cons_self _ _
          · rw [h, hc]; exact List.mem_cons_of_mem _ (List.mem_cons_self _ _)
        · exact List.mem_cons_of_mem _ (List.mem_cons_of_mem _ h)
      · intro y hy
        rcases List.mem_cons.1 hy with rfl | hy
        · exact le_trans (hlb _ (List.mem_cons_self _ _)) (min_le_left y z)
        · rcases List.mem_cons.1 hy with rfl | hy
          · exact le_trans (hlb _ (List.mem_cons_self _ _)) (min_le_right x y)
          · exact hlb y (List.mem_cons_of_mem _ hy)

theorem listMaxV_eq_some (xs : List ℚ) (m : ℚ) (h : listMaxV xs = some m) :
    m ∈ xs ∧ ∀ y ∈ xs, y ≤ m := by
  cases xs with
  | nil => simp [listMaxV] at h
  | cons x t =>
      have hm : t.foldl max x = m := by simpa [listMaxV] using h
      obtain ⟨hmem, hub⟩ := foldl_max_spec t x
      rw [hm] at hmem hub
      exact ⟨hmem, hub⟩

theorem listMinV_eq_some (xs : List ℚ) (m : ℚ) (h : listMinV xs = some m) :
    m ∈ xs ∧ ∀ y ∈ xs, m ≤ y := by
  cases xs with
  | nil => simp [listMinV] at h
  | cons x t =>
      have hm : t.foldl min x = m := by simpa [listMinV] using h
      obtain ⟨hmem, hlb⟩ := foldl_min_spec t x
      rw [hm] at hmem hlb
      exact ⟨hmem, hlb⟩

theorem listMaxV_of_ne_nil (xs : List ℚ) (h : xs ≠ []) :
    ∃ m, listMaxV xs = some m := by
  cases xs with
  | nil => exact absurd rfl h
  | cons x t => exact ⟨_, rfl⟩

theorem listMinV_of_ne_nil (xs : List ℚ) (h : xs ≠ []) :
    ∃ m, listMinV xs = some m := by
  cases xs with
  | nil => exact absurd rfl h
  | cons x t => exact ⟨_, rfl⟩

theorem mem_slice_iff (xs : List α) (a b : ℕ) (y : α) :
    y ∈ (xs.take b).drop a ↔ ∃ j, a ≤ j ∧ j < b ∧ xs.get? j = some y := by
  constructor
  · intro hy
    obtain ⟨k, hk⟩ := List.get?_of_mem hy
    rw [get?_drop_eq, get?_take_eq] at hk
    by_cases hab : a + k < b
    · rw [if_pos hab] at hk
      exact ⟨a + k, Nat.le_add_right a k, hab, hk⟩
    · rw [if_neg hab] at hk
      exact absurd hk (by simp)
  · rintro ⟨j, haj, hjb, hj⟩
    rw [List.mem_iff_get?]
    refine ⟨j - a, ?_⟩
    rw [get?_drop_eq, get?_take_eq, if_pos (by omega)]
    rw [Nat.add_sub_cancel' haj]
    exact hj

theorem rollingMax_get? (w : ℕ) (xs : List ℚ) (i : ℕ) (h : i < xs.length) :
    (rollingMax w xs).get? i =
      some (if i + 1 < w then none
        else listMaxV ((xs.take (i + 1)).drop (i + 1 - w))) := by
  rw [rollingMax, List.get?_map, List.get?_range h]
  rfl

theorem rollingMin_get? (w : ℕ) (xs : List ℚ) (i : ℕ) (h : i < xs.length) :
    (rollingMin w xs).get? i =
      some (if i + 1 < w then none
        else listMinV ((xs.take (i + 1)).drop (i + 1 - w))) := by
  rw [rollingMin, List.get?_map, List.get?_range h]
  rfl

theorem box_high_get? (data : List Bar) (w i : ℕ) (h : i < data.length) :
    (box_high data w).get? i =
      some (if i < w then none
        else listMaxV (((highs data).take i).drop (i - w))) := by
  have hlh : (highs data).length = data.length := by simp [highs]
  cases i with
  | zero =>
      have hne : rollingMax w (highs data) ≠ [] := by
        intro hnil
        have hl := congrArg List.length hnil
        rw [rollingMax_length, hlh, List.length_nil] at hl
        omega
      rw [box_high, get?_shift1_zero _ hne]
      by_cases h0 : 0 < w
      · rw [if_pos h0]
      · rw [if_neg h0]
        simp [listMaxV]
  | succ n =>
      have hlen : n + 1 < (rollingMax w (highs data)).length := by
        rw [rollingMax_length, hlh]; omega
      rw [box_high, get?_shift1_succ _ _ hlen,
        rollingMax_get? w (highs data) n (by omega)]

theorem box_low_get? (data : List Bar) (w i : ℕ) (h : i < data.length) :
    (box_low data w).get? i =
      some (if i < w then none
        else listMinV (((lows data).take i).drop (i - w))) := by
  have hlh : (lows data).length = data.length := by simp [lows]
  cases i with
  | zero =>
      have hne : rollingMin w (lows data) ≠ [] := by
        intro hnil
        have hl := congrArg List.length hnil
        rw [rollingMin_length, hlh, List.length_nil] at hl
        omega
      rw [box_low, get?_shift1_zero _ hne]
      by_cases h0 : 0 < w
      · rw [if_pos h0]
      · rw [if_neg h0]
        simp [listMinV]
  | succ n =>
      have hlen : n + 1 < (rollingMin w (lows data)).length := by
        rw [rollingMin_length, hlh]; omega
      rw [box_low, get?_shift1_succ _ _ hlen,
        rollingMin_get? w (lows data) n (by omega)]

/-- Pointwise form of the two `np.where` steps that build the `signal`
column. -/
theorem signal_get?_eq (data : List Bar) (w i : ℕ) (bar : Bar) (bhv blv : Val)
    (hb : data.get? i = some bar)
    (h1 : (box_high data w).get? i = some bhv)
    (h2 : (box_low data w).get? i = some blv) :
    (signal data w).get? i =
      some (if vLt (some bar.close) blv then -1
        else if vGt (some bar.close) bhv then 1 else 0) := by
  have hc : (closes data).get? i = some bar.close := by
    rw [closes, List.get?_map, hb]; rfl
  rw [signal, get?_zipWith3_eq, hc, h2, get?_zipWith_eq, hc, h1]
  rfl

/-- C1: with lookback `w ≥ 1`, for every warm index `i < w` both box values
are undefined (NaN) and the signal is 0; for every `i ≥ w`, `box_high[i]`
is the maximum high and `box_low[i]` the minimum low over the trailing
window of bars `[i-w, i-1]`, which excludes bar `i` itself. -/
theorem box_window_and_warmup (data : List Bar) (w i : ℕ) (hw : 1 ≤ w)
    (hi : i < data.length) :
    (i < w → (box_high data w).get? i = some none ∧
      (box_low data w).get? i = some none ∧
      (signal data w).get? i = some 0) ∧
    (w ≤ i → ∃ mh ml, (box_high data w).get? i = some (some mh) ∧
      (box_low data w).get? i = some (some ml) ∧
      IsMaxHigh data (i - w) i mh ∧ IsMinLow data (i - w) i ml) := by
  obtain ⟨bar, hbar⟩ : ∃ bar, data.get? i = some bar := ⟨_, List.get?_eq_get hi⟩
  constructor
  · intro hiw
    have hbh : (box_high data w).get? i = some none := by
      rw [box_high_get? data w i hi, if_pos hiw]
    have hbl : (box_low data w).get? i = some none := by
      rw [box_low_get? data w i hi, if_pos hiw]
    refine ⟨hbh, hbl, ?_⟩
    rw [signal_get?_eq data w i bar none none hbar hbh hbl]
    rfl
  · intro hwi
    have hlenh : (((highs data).take i).drop (i - w)).length = w := by
      rw [List.length_drop, List.length_take]
      simp only [highs, List.length_map]
      omega
    have hlenl : (((lows data).take i).drop (i - w)).length = w := by
      rw [List.length_drop, List.length_take]
      simp only [lows, List.length_map]
      omega
    obtain ⟨mh, hmh⟩ := listMaxV_of_ne_nil (((highs data).take i).drop (i - w)) (by
      intro hnil
      rw [hnil, List.length_nil] at hlenh
      omega)
    obtain ⟨ml, hml⟩ := listMinV_of_ne_nil (((lows data).take i).drop (i - w)) (by
      intro hnil
      rw [hnil, List.length_nil] at hlenl
      omega)
    refine ⟨mh, ml, ?_, ?_, ?_, ?_⟩
    · rw [box_high_get? data w i hi, if_neg (by omega), hmh]
    · rw [box_low_get? data w i hi, if_neg (by omega), hml]
    · obtain ⟨hmem, hub⟩ := listMaxV_eq_some _ _ hmh
      constructor
      · intro j b haj hjb hjget
        have hjh : (highs data).get? j = some b.high := by
          rw [highs, List.get?_map, hjget]; rfl
        exact hub _ ((mem_slice_iff _ _ _ _).2 ⟨j, haj, hjb, hjh⟩)
      · obtain ⟨j, haj, hjb, hj⟩ := (mem_slice_iff _ _ _ _).1 hmem
        rw [highs, List.get?_map] at hj
        obtain ⟨b, hb1, hb2⟩ := Option.map_eq_some'.1 hj
        exact ⟨j, b, haj, hjb, hb1, hb2⟩
    · obtain ⟨hmem, hlb⟩ := listMinV_eq_some _ _ hml
      constructor
      · intro j b haj hjb hjget
        have hjl : (lows data).get? j = some b.low := by
          rw [lows, List.get?_map, hjget]; rfl
        exact hlb _ ((mem_slice_iff _ _ _ _).2 ⟨j, haj, hjb, hjl⟩)
      · obtain ⟨j, haj, hjb, hj⟩ := (mem_slice_iff _ _ _ _).1 hmem
        rw [lows, List.get?_map] at hj
        obtain ⟨b, hb1, hb2⟩ := Option.map_eq_some'.1 hj
        exact ⟨j, b, haj, hjb, hb1, hb2⟩

theorem box_window_and_warmup_witness :
    ((box_high dataTwoBars 1).get? 0 = some none ∧
      (box_low dataTwoBars 1).get? 0 = some none ∧
      (signal dataTwoBars 1).get? 0 = some 0) ∧
    (∃ mh ml, (box_high dataTwoBars 1).get? 1 = some (some mh) ∧
      (box_low dataTwoBars 1).get? 1 = some (some ml) ∧
      IsMaxHigh dataTwoBars 0 1 mh ∧ IsMinLow dataTwoBars 0 1 ml) :=
  ⟨(box_window_and_warmup dataTwoBars 1 0 (le_refl 1)
      (by norm_num [dataTwoBars])).1 (by norm_num),
    (box_window_and_warmup dataTwoBars 1 1 (le_refl 1)
      (by norm_num [dataTwoBars])).2 (le_refl 1)⟩

/-- C2: at any bar whose box values are defined, the signal is -1 when
`close < box_low`, +1 when `close > box_high` and not `close < box_low`,
0 otherwise; when both breakout conditions hold at once (which forces
`box_high < box_low`), the short overwrite wins and the signal is -1. -/
theorem signal_rule_and_short_precedence (data : List Bar) (w i : ℕ)
    (bar : Bar) (bh bl : ℚ)
    (hb : data.get? i = some bar)
    (h1 : (box_high data w).get? i = some (some bh))
    (h2 : (box_low data w).get? i = some (some bl)) :
    (signal data w).get? i =
        some (if bar.close < bl then -1 else if bh < bar.close then 1 else 0) ∧
      (bar.close < bl → (signal data w).get? i = some (-1)) ∧
      (bh < bar.close → ¬ bar.close < bl → (signal data w).get? i = some 1) ∧
      (¬ bh < bar.close → ¬ bar.close < bl → (signal data w).get? i = some 0) ∧
      (bh < bar.close → bar.close < bl →
        bh < bl ∧ (signal data w).get? i = some (-1)) := by
  have h := signal_get?_eq data w i bar (some bh) (some bl) hb h1 h2
  simp only [vLt, vGt, decide_eq_true_eq] at h
  refine ⟨h, ?_, ?_, ?_, ?_⟩
  · intro hlt
    rw [h, if_pos hlt]
  · intro hgt hnlt
    rw [h, if_neg hnlt, if_pos hgt]
  · intro hngt hnlt
    rw [h, if_neg hnlt, if_neg hngt]
  · intro hgt hlt
    exact ⟨lt_trans hgt hlt, by rw [h, if_pos hlt]⟩

theorem signal_rule_and_short_precedence_witness :
    (signal dataTwoBars 1).get? 1 =
        some (if (Bar.mk 5 4 3).close < 1 then -1
          else if 2 < (Bar.mk 5 4 3).close then 1 else 0) ∧
      ((Bar.mk 5 4 3).close < 1 → (signal dataTwoBars 1).get? 1 = some (-1)) ∧
      (2 < (Bar.mk 5 4 3).close → ¬ (Bar.mk 5 4 3).close < 1 →
        (signal dataTwoBars 1).get? 1 = some 1) ∧
      (¬ 2 < (Bar.mk 5 4 3).close → ¬ (Bar.mk 5 4 3).close < 1 →
        (signal dataTwoBars 1).get? 1 = some 0) ∧
      (2 < (Bar.mk 5 4 3).close → (Bar.mk 5 4 3).close < 1 →
        (2 : ℚ) < 1 ∧ (signal dataTwoBars 1).get? 1 = some (-1)) :=
  signal_rule_and_short_precedence dataTwoBars 1 1 (Bar.mk 5 4 3) 2 1
    (by norm_num [dataTwoBars])
    (by norm_num [box_high, shift1, rollingMax, highs, dataTwoBars, listMaxV,
      List.range_succ, get?_take_eq])
    (by norm_num [box_low, shift1, rollingMin, lows, dataTwoBars, listMinV,
      List.range_succ, get?_take_eq])

/-! ### The reducer's non-degenerate branch -/

theorem calculate_metrics_full (sr : List Val) (h : tradesOf sr ≠ []) :
    (calculate_metrics sr).total_trades = (tradesOf sr).length ∧
      (calculate_metrics sr).max_drawdown_pct =
        some (vRound 2 (vMul (maxDrawdownOf sr) (some 100))) := by
  obtain ⟨t, ts, htr⟩ := List.exists_cons_of_ne_nil h
  constructor <;> simp [calculate_metrics, htr]

theorem winningOf_no_nan (sr : List Val) : (none : Val) ∉ winningOf sr := by
  simp [winningOf, List.mem_filter, vGt]

/-- C10: on every non-empty series the pipeline output has the NaN at
bar 0, that NaN passes the trade filter (so `total_trades ≥ 1` and the
zero-trades branch of the reducer is unreachable), and it is never
counted as a winning trade. -/
theorem pipeline_always_counts_bar0 (data : List Bar) (cfg : StrategyConfig)
    (h : data ≠ []) :
    (strategy_return data cfg).get? 0 = some none ∧
      1 ≤ (calculate_metrics (strategy_return data cfg)).total_trades ∧
      (calculate_metrics (strategy_return data cfg)).max_drawdown_pct ≠ none ∧
      (none : Val) ∉ winningOf (strategy_return data cfg) := by
  have h0 := strategy_return_get?_zero data cfg h
  have hmem : (none : Val) ∈ strategy_return data cfg := List.get?_mem h0
  have htr : (none : Val) ∈ tradesOf (strategy_return data cfg) := by
    rw [tradesOf, List.mem_filter]
    exact ⟨hmem, rfl⟩
  have hne : tradesOf (strategy_return data cfg) ≠ [] := List.ne_nil_of_mem htr
  obtain ⟨htt, hmdd⟩ := calculate_metrics_full _ hne
  refine ⟨h0, ?_, ?_, winningOf_no_nan _⟩
  · rw [htt]
    have := List.length_pos.2 hne
    omega
  · rw [hmdd]
    simp

theorem pipeline_always_counts_bar0_witness :
    (strategy_return dataOneBar cfgBase).get? 0 = some none ∧
      1 ≤ (calculate_metrics (strategy_return dataOneBar cfgBase)).total_trades ∧
      (calculate_metrics (strategy_return dataOneBar cfgBase)).max_drawdown_pct ≠ none ∧
      (none : Val) ∉ winningOf (strategy_return dataOneBar cfgBase) :=
  pipeline_always_counts_bar0 dataOneBar cfgBase (by simp [dataOneBar])

/-! ### The grid optimizer -/

theorem trades_ne_nil_of_data_ne_nil (data : List Bar) (cfg : StrategyConfig)
    (h : data ≠ []) : tradesOf (strategy_return data cfg) ≠ [] := by
  have h0 := strategy_return_get?_zero data cfg h
  have hmem : (none : Val) ∈ strategy_return data cfg := List.get?_mem h0
  apply List.ne_nil_of_mem (a := (none : Val))
  rw [tradesOf, List.mem_filter]
  exact ⟨hmem, rfl⟩

theorem combinations_eq_product (ws : List ℕ) (ss ts : List ℚ) :
    combinations ws ss ts = ws ×ˢ (ss ×ˢ ts) := by
  show combinations ws ss ts = List.product ws (List.product ss ts)
  simp only [combinations, List.product, List.map_flatMap, List.map_map]
  rfl

theorem evalCombo_ok (data : List Bar) (hd : data ≠ []) (p : ℕ × ℚ × ℚ) :
    ∃ r, evalCombo data p = .ok r ∧ paramsOf r = p := by
  obtain ⟨w, s, t⟩ := p
  have hne := trades_ne_nil_of_data_ne_nil data ⟨w, t, s, 0.0002⟩ hd
  obtain ⟨-, hmdd⟩ :=
    calculate_metrics_full (strategy_return data ⟨w, t, s, 0.0002⟩) hne
  refine ⟨⟨w, s, t,
      (calculate_metrics (strategy_return data ⟨w, t, s, 0.0002⟩)).win_rate,
      (calculate_metrics (strategy_return data ⟨w, t, s, 0.0002⟩)).total_trades,
      vRound 2 (vMul (maxDrawdownOf (strategy_return data ⟨w, t, s, 0.0002⟩)) (some 100)),
      (calculate_metrics (strategy_return data ⟨w, t, s, 0.0002⟩)).expectancy⟩,
    ?_, rfl⟩
  simp only [evalCombo, run_strategyFrame]
  rw [hmdd]

theorem runSweep_ok (data : List Bar) :
    ∀ l : List (ℕ × ℚ × ℚ),
      (∀ p ∈ l, ∃ r, evalCombo data p = .ok r ∧ paramsOf r = p) →
      ∃ rows, runSweep data l = .ok rows ∧ rows.map paramsOf = l := by
  intro l
  induction l with
  | nil => intro _; exact ⟨[], rfl, rfl⟩
  | cons p ps ih =>
      intro h
      obtain ⟨r, hr, hpr⟩ := h p (List.mem_cons_self _ _)
      obtain ⟨rows, hrows, hmap⟩ := ih fun q hq => h q (List.mem_cons_of_mem _ hq)
      refine ⟨r :: rows, ?_, ?_⟩
      · simp only [runSweep, hr, hrows]
      · simp [hmap, hpr]

theorem sortOutput_perm (rows : List GridRow) : (sortOutput rows).Perm rows :=
  List.perm_insertionSort _ rows

/-- C8: for a non-empty series and duplicate-free parameter lists, the
optimizer's ranked output has exactly `|windows| * |stop_losses| *
|take_profits|` rows, whose parameter tuples are duplicate-free and are
exactly the Cartesian product of the three lists. -/
theorem grid_rows_complete (data : List Bar) (ws : List ℕ) (ss ts : List ℚ)
    (hd : data ≠ []) (hw : ws.Nodup) (hs : ss.Nodup) (ht : ts.Nodup) :
    ∃ rows, optimizer_output data ws ss ts = .ok rows ∧
      rows.length = ws.length * ss.length * ts.length ∧
      (rows.map paramsOf).Nodup ∧
      (∀ w s t, (w, s, t) ∈ rows.map paramsOf ↔ w ∈ ws ∧ s ∈ ss ∧ t ∈ ts) := by
  obtain ⟨rows0, hrun, hmap⟩ := runSweep_ok data (combinations ws ss ts)
    (fun p _ => evalCombo_ok data hd p)
  have hperm : ((sortOutput rows0).map paramsOf).Perm (rows0.map paramsOf) :=
    (sortOutput_perm rows0).map paramsOf
  refine ⟨sortOutput rows0, ?_, ?_, ?_, ?_⟩
  · rw [optimizer_output, hrun]
  · have h1 : (sortOutput rows0).length = rows0.length :=
      (sortOutput_perm rows0).length_eq
    have h2 : rows0.length = (combinations ws ss ts).length := by
      rw [← hmap, List.length_map]
    rw [h1, h2, combinations_eq_product, List.length_product,
      List.length_product, Nat.mul_assoc]
  · rw [hperm.nodup_iff, hmap, combinations_eq_product]
    exact hw.product (hs.product ht)
  · intro w s t
    rw [hperm.mem_iff, hmap, combinations_eq_product]
    simp [List.mem_product]

theorem grid_rows_complete_witness :
    ∃ rows, optimizer_output dataOneBar [2, 3] [1/100] [1/100, 1/50] = .ok rows ∧
      rows.length = ([2, 3] : List ℕ).length * ([1/100] : List ℚ).length *
        ([1/100, 1/50] : List ℚ).length ∧
      (rows.map paramsOf).Nodup ∧
      (∀ w s t, (w, s, t) ∈ rows.map paramsOf ↔
        w ∈ ([2, 3] : List ℕ) ∧ s ∈ ([1/100] : List ℚ) ∧
          t ∈ ([1/100, 1/50] : List ℚ)) :=
  grid_rows_complete dataOneBar [2, 3] [1/100] [1/100, 1/50]
    (by simp [dataOneBar]) (by norm_num) (by norm_num) (by norm_num)

/-! ### Rounding: Python round to 2 decimals -/

theorem floor_of_small (y : ℚ) (hl : -(1/2) ≤ y) (hu : y ≤ 1/2) :
    ⌊y⌋ = 0 ∨ ⌊y⌋ = -1 := by
  have hfl : (⌊y⌋ : ℚ) ≤ y := Int.floor_le y
  have hfu : y < (⌊y⌋ : ℚ) + 1 := Int.lt_floor_add_one y
  have h1 : ⌊y⌋ < 1 := by
    have : (⌊y⌋ : ℚ) < 1 := by linarith
    exact_mod_cast this
  have h2 : (-2 : ℤ) < ⌊y⌋ := by
    have : (-2 : ℚ) < (⌊y⌋ : ℚ) := by linarith
    exact_mod_cast this
  omega

theorem roundHalfEven_nonpos (y : ℚ) (hy : y ≤ 0) : roundHalfEven y ≤ 0 := by
  have hfl : (⌊y⌋ : ℚ) ≤ y := Int.floor_le y
  have hf0 : ⌊y⌋ ≤ 0 := Int.floor_nonpos hy
  rw [roundHalfEven]
  split_ifs with h1 h2 h3
  · exact hf0
  · by_contra hc
    push_neg at hc
    have hf : ⌊y⌋ = 0 := by omega
    rw [hf] at h2
    push_cast at h2
    linarith
  · exact hf0
  · by_contra hc
    push_neg at hc
    have hf : ⌊y⌋ = 0 := by omega
    rw [hf] at h1
    push_cast at h1
    linarith

theorem roundHalfEven_eq_zero_iff (y : ℚ) :
    roundHalfEven y = 0 ↔ -(1/2) ≤ y ∧ y ≤ 1/2 := by
  have hfl : (⌊y⌋ : ℚ) ≤ y := Int.floor_le y
  have hfu : y < (⌊y⌋ : ℚ) + 1 := Int.lt_floor_add_one y
  rw [roundHalfEven]
  split_ifs with h1 h2 h3
  · constructor
    · intro h0
      rw [h0] at hfl h1
      push_cast at hfl h1
      constructor <;> linarith
    · rintro ⟨hl, hu⟩
      rcases floor_of_small y hl hu with hf | hf
      · exact hf
      · exfalso
        rw [hf] at h1
        push_cast at h1
        linarith
  · constructor
    · intro h0
      have hf : ⌊y⌋ = -1 := by omega
      rw [hf] at h2 hfu
      push_cast at h2 hfu
      constructor <;> linarith
    · rintro ⟨hl, hu⟩
      rcases floor_of_small y hl hu with hf | hf
      · exfalso
        rw [hf] at h2
        push_cast at h2
        linarith
      · omega
  · have htie : y - (⌊y⌋ : ℚ) = 1/2 := le_antisymm (not_lt.1 h2) (not_lt.1 h1)
    constructor
    · intro h0
      rw [h0] at htie
      push_cast at htie
      constructor <;> linarith
    · rintro ⟨hl, hu⟩
      rcases floor_of_small y hl hu with hf | hf
      · exact hf
      · exfalso
        rw [hf] at h3
        omega
  · have htie : y - (⌊y⌋ : ℚ) = 1/2 := le_antisymm (not_lt.1 h2) (not_lt.1 h1)
    constructor
    · intro h0
      have hf : ⌊y⌋ = -1 := by omega
      rw [hf] at htie
      push_cast at htie
      constructor <;> linarith
    · rintro ⟨hl, hu⟩
      rcases floor_of_small y hl hu with hf | hf
      · exfalso
        rw [hf] at h3
        omega
      · omega

theorem roundTo_nonpos (n : ℕ) (x : ℚ) (h : x ≤ 0) : roundTo n x ≤ 0 := by
  rw [roundTo]
  apply div_nonpos_iff.2
  right
  constructor
  · exact_mod_cast roundHalfEven_nonpos _
      (mul_nonpos_of_nonpos_of_nonneg h (by positivity))
  · positivity

theorem roundTo_eq_zero_iff (n : ℕ) (x : ℚ) :
    roundTo n x = 0 ↔ -(1/2) ≤ x * 10 ^ n ∧ x * 10 ^ n ≤ 1/2 := by
  have h10 : ((10 : ℚ) ^ n) ≠ 0 := by positivity
  rw [roundTo, div_eq_zero_iff]
  simp only [Int.cast_eq_zero, h10, or_false]
  exact roundHalfEven_eq_zero_iff _

/-! ### C6: the drawdown computation -/

theorem goodRet_iff (v : Val) :
    goodRet v = true ↔ ∃ q, v = some q ∧ 0 < 1 + q := by
  cases v with
  | none => simp [goodRet]
  | some q => simp [goodRet]

theorem cumprodFrom_pos (l : List Val) :
    ∀ a : ℚ, 0 < a → (∀ u ∈ l, ∃ f, u = some f ∧ 0 < f) →
      ∀ v ∈ cumprodFrom (some a) l, ∃ q, v = some q ∧ 0 < q := by
  induction l with
  | nil => intro a _ _ v hv; simp [cumprodFrom] at hv
  | cons u us ih =>
      intro a ha hpos v hv
      obtain ⟨f, rfl, hf⟩ := hpos u (List.mem_cons_self _ _)
      rw [show cumprodFrom (some a) (some f :: us) =
          some (a * f) :: cumprodFrom (some (a * f)) us from rfl] at hv
      rcases List.mem_cons.1 hv with rfl | hv
      · exact ⟨a * f, rfl, mul_pos ha hf⟩
      · exact ih (a * f) (mul_pos ha hf)
          (fun u2 hu => hpos u2 (List.mem_cons_of_mem _ hu)) v hv

theorem drawdown_cells (cs : List Val) :
    ∀ m0 : Option ℚ,
      (∀ v ∈ cs, ∃ q, v = some q ∧ 0 < q) →
      (∀ b, m0 = some b → 0 < b) →
      ∀ i v, (List.zipWith ddCell cs (cummaxFrom m0 cs)).get? i = some v →
        ∃ a p, cs.get? i = some (some a) ∧
          (cummaxFrom m0 cs).get? i = some (some p) ∧
          0 < a ∧ 0 < p ∧ a ≤ p ∧ v = some ((a - p) / p) := by
  induction cs with
  | nil => intro m0 _ _ i v hv; simp at hv
  | cons c rest ih =>
      intro m0 hpos hm i v hv
      obtain ⟨a, rfl, hapos⟩ := hpos c (List.mem_cons_self _ _)
      have hrest : ∀ u ∈ rest, ∃ q, u = some q ∧ 0 < q :=
        fun u hu => hpos u (List.mem_cons_of_mem _ hu)
      cases m0 with
      | none =>
          have hcm : cummaxFrom none (some a :: rest) =
              some a :: cummaxFrom (some a) rest := rfl
          rw [hcm] at hv ⊢
          cases i with
          | zero =>
              rw [List.zipWith_cons_cons, List.get?_cons_zero] at hv
              injection hv with hv
              refine ⟨a, a, rfl, rfl, hapos, hapos, le_rfl, ?_⟩
              rw [← hv]
              simp [ddCell, vSub, vDiv, hapos.ne']
          | succ n =>
              rw [List.zipWith_cons_cons, List.get?_cons_succ] at hv
              obtain ⟨a2, p, h1, h2, h3, h4, h5, h6⟩ := ih (some a) hrest
                (by intro b hb; injection hb with hb; rw [← hb]; exact hapos) n v hv
              exact ⟨a2, p, by rw [List.get?_cons_succ]; exact h1,
                by rw [List.get?_cons_succ]; exact h2, h3, h4, h5, h6⟩
      | some b =>
          have hbpos : 0 < b := hm b rfl
          have hmax : 0 < max b a := lt_of_lt_of_le hapos (le_max_right b a)
          have hcm : cummaxFrom (some b) (some a :: rest) =
              some (max b a) :: cummaxFrom (some (max b a)) rest := rfl
          rw [hcm] at hv ⊢
          cases i with
          | zero =>
              rw [List.zipWith_cons_cons, List.get?_cons_zero] at hv
              injection hv with hv
              refine ⟨a, max b a, rfl, rfl, hapos, hmax, le_max_right b a, ?_⟩
              rw [← hv]
              simp [ddCell, vSub, vDiv, hmax.ne']
          | succ n =>
              rw [List.zipWith_cons_cons, List.get?_cons_succ] at hv
              obtain ⟨a2, p, h1, h2, h3, h4, h5, h6⟩ := ih (some (max b a)) hrest
                (by intro q hq; injection hq with hq; rw [← hq]; exact hmax) n v hv
              exact ⟨a2, p, by rw [List.get?_cons_succ]; exact h1,
                by rw [List.get?_cons_succ]; exact h2, h3, h4, h5, h6⟩

theorem vMinList_spec (l : List Val) (q0 : ℚ) (h0 : some q0 ∈ l) :
    ∃ d, vMinList l = some d ∧ some d ∈ l ∧ ∀ q, some q ∈ l → d ≤ q := by
  have hq0 : q0 ∈ l.filterMap id := List.mem_filterMap.2 ⟨some q0, h0, rfl⟩
  have hne : l.filterMap id ≠ [] := List.ne_nil_of_mem hq0
  obtain ⟨d, hd⟩ := listMinV_of_ne_nil (l.filterMap id) hne
  obtain ⟨hdmem, hdlb⟩ := listMinV_eq_some _ _ hd
  refine ⟨d, hd, ?_, ?_⟩
  · obtain ⟨v, hvl, hvd⟩ := List.mem_filterMap.1 hdmem
    have : v = some d := hvd
    rw [← this]
    exact hvl
  · intro q hq
    exact hdlb q (List.mem_filterMap.2 ⟨some q, hq, rfl⟩)

/-- C6 amended: over a well-formed return series with at least one trade,
`max_drawdown_pct` is always ≤ 0, and it equals 0 exactly when the minimum
drawdown is ≥ -1/20000 (i.e. rounds to 0 at 2 decimals); a curve that
never falls below its running peak gives 0, but so does any dip smaller
than 0.005% of the peak. -/
theorem max_drawdown_nonpos_and_rounding (sr : List Val)
    (hwf : WellFormedReturns sr) (ht : tradesOf sr ≠ []) :
    ∃ d : ℚ, maxDrawdownOf sr = some d ∧ d ≤ 0 ∧
      (calculate_metrics sr).max_drawdown_pct = some (some (roundTo 2 (d * 100))) ∧
      roundTo 2 (d * 100) ≤ 0 ∧
      (roundTo 2 (d * 100) = 0 ↔ -(1/20000) ≤ d) ∧
      ((∀ i c p, (cumOf sr).get? i = some (some c) →
          (peakOf sr).get? i = some (some p) → ¬ c < p) →
        roundTo 2 (d * 100) = 0) := by
  obtain ⟨hne, hgood⟩ := hwf
  have hcum : ∀ v ∈ cumOf sr, ∃ q, v = some q ∧ 0 < q := by
    rw [cumOf]
    apply cumprodFrom_pos _ 1 one_pos
    intro u hu
    rw [List.mem_map] at hu
    obtain ⟨v, hv, rfl⟩ := hu
    obtain ⟨q, rfl, hq⟩ := (goodRet_iff v).1 (hgood v hv)
    exact ⟨1 + q, rfl, hq⟩
  obtain ⟨r0, rest, hsr⟩ := List.exists_cons_of_ne_nil hne
  obtain ⟨q0, hq0eq, hq0⟩ := (goodRet_iff r0).1
    (hgood r0 (hsr ▸ List.mem_cons_self _ _))
  have hc0 : cumOf sr = some (1 * (1 + q0)) ::
      cumprodFrom (some (1 * (1 + q0))) (rest.map (vAdd (some 1))) := by
    rw [cumOf, hsr, hq0eq]
    rfl
  have hc0pos : 0 < 1 * (1 + q0) := by rw [one_mul]; exact hq0
  have hdd0 : (drawdownOf sr).get? 0 = some (some 0) := by
    rw [drawdownOf, peakOf, hc0]
    rw [show cummaxFrom none (some (1 * (1 + q0)) ::
        cumprodFrom (some (1 * (1 + q0))) (rest.map (vAdd (some 1)))) =
      some (1 * (1 + q0)) :: cummaxFrom (some (1 * (1 + q0)))
        (cumprodFrom (some (1 * (1 + q0))) (rest.map (vAdd (some 1)))) from rfl]
    rw [List.zipWith_cons_cons, List.get?_cons_zero]
    simp [ddCell, vSub, vDiv, hc0pos.ne', hq0.ne']
  have hmem0 : (some 0 : Val) ∈ drawdownOf sr := List.get?_mem hdd0
  have hcells := drawdown_cells (cumOf sr) none hcum (by intro b hb; cases hb)
  obtain ⟨d, hd, hdmem, hdle⟩ := vMinList_spec (drawdownOf sr) 0 hmem0
  have hd0 : d ≤ 0 := hdle 0 hmem0
  obtain ⟨-, hmdd⟩ := calculate_metrics_full sr ht
  have hmax : maxDrawdownOf sr = some d := hd
  have hfield : (calculate_metrics sr).max_drawdown_pct =
      some (some (roundTo 2 (d * 100))) := by
    rw [hmdd, hmax]
    rfl
  refine ⟨d, hmax, hd0, hfield, ?_, ?_, ?_⟩
  · exact roundTo_nonpos 2 _ (mul_nonpos_of_nonpos_of_nonneg hd0 (by norm_num))
  · rw [roundTo_eq_zero_iff]
    have h100 : ((10 : ℚ) ^ 2) = 100 := by norm_num
    rw [h100]
    constructor
    · rintro ⟨h1, -⟩
      linarith
    · intro hge
      constructor <;> linarith
  · intro hnever
    have hall0 : ∀ q : ℚ, some q ∈ drawdownOf sr → q = 0 := by
      intro q hq
      obtain ⟨i, hi⟩ := List.get?_of_mem hq
      obtain ⟨a, p, hca, hpp, hapos, hppos, hale, hveq⟩ :=
        hcells i (some q) hi
      have hq2 : q = (a - p) / p := by
        injection hveq
      have hnlt := hnever i a p hca hpp
      have hap : a = p := le_antisymm hale (not_lt.1 hnlt)
      rw [hq2, hap, sub_self, zero_div]
    have hdz : d = 0 := hall0 d hdmem
    rw [hdz, zero_mul]
    have : roundTo 2 (0 : ℚ) = 0 := by
      rw [roundTo_eq_zero_iff]
      norm_num
    exact this
theorem max_drawdown_nonpos_and_rounding_witness :
    WellFormedReturns [some (1/10 : ℚ), some (-(1/10))] ∧
      tradesOf [some (1/10 : ℚ), some (-(1/10))] ≠ [] ∧
      ∃ d : ℚ, maxDrawdownOf [some (1/10 : ℚ), some (-(1/10))] = some d ∧ d ≤ 0 ∧
        (calculate_metrics [some (1/10 : ℚ), some (-(1/10))]).max_drawdown_pct =
          some (some (roundTo 2 (d * 100))) ∧
        roundTo 2 (d * 100) ≤ 0 ∧
        (roundTo 2 (d * 100) = 0 ↔ -(1/20000) ≤ d) ∧
        ((∀ i c p,
            (cumOf [some (1/10 : ℚ), some (-(1/10))]).get? i = some (some c) →
            (peakOf [some (1/10 : ℚ), some (-(1/10))]).get? i = some (some p) →
            ¬ c < p) →
          roundTo 2 (d * 100) = 0) := by
  have h1 : WellFormedReturns [some (1/10 : ℚ), some (-(1/10))] := by
    constructor
    · simp
    · intro v hv
      rcases List.mem_cons.1 hv with rfl | hv
      · norm_num [goodRet]
      · rcases List.mem_cons.1 hv with rfl | hv
        · norm_num [goodRet]
        · simp at hv
  have h2 : tradesOf [some (1/10 : ℚ), some (-(1/10))] ≠ [] := by
    norm_num [tradesOf, vNe0]
    simp
  exact ⟨h1, h2, max_drawdown_nonpos_and_rounding _ h1 h2⟩

/-- Counterexample to C6 as stated: a dip of one part in 100000 leaves the
equity curve strictly below its running peak at bar 1, yet the reported
`max_drawdown_pct` is exactly 0, because `round(·, 2)` flushes the tiny
negative drawdown to zero.  So "equals 0 exactly when the curve never
falls below its peak" fails in the only-if direction. -/
theorem drawdown_rounding_hides_tiny_dip :
    (calculate_metrics [some 0, some (-(1/100000) : ℚ)]).max_drawdown_pct =
        some (some 0) ∧
      (cumOf [some 0, some (-(1/100000) : ℚ)]).get? 1 =
        some (some (99999/100000)) ∧
      (peakOf [some 0, some (-(1/100000) : ℚ)]).get? 1 = some (some 1) ∧
      (99999/100000 : ℚ) < 1 := by
  have htr : tradesOf [some 0, some (-(1/100000) : ℚ)] ≠ [] := by
    norm_num [tradesOf, vNe0]
  have hmdd : maxDrawdownOf [some 0, some (-(1/100000) : ℚ)] =
      some (-(1/100000)) := by
    norm_num [maxDrawdownOf, drawdownOf, cumOf, peakOf, cumprodFrom, cummaxFrom,
      vAdd, vMul, vSub, vDiv, ddCell, vMinList, listMinV, List.filterMap_cons,
      min_def, max_def]
  have hround : roundTo 2 (-(1/100000) * 100 : ℚ) = 0 := by
    rw [roundTo_eq_zero_iff]
    norm_num
  obtain ⟨-, hfield⟩ := calculate_metrics_full [some 0, some (-(1/100000) : ℚ)] htr
  refine ⟨?_, ?_, ?_, by norm_num⟩
  · rw [hfield, hmdd]
    simp only [vMul, vRound]
    rw [hround]
  · norm_num [cumOf, cumprodFrom, vAdd, vMul]
  · norm_num [peakOf, cumOf, cumprodFrom, cummaxFrom, vAdd, vMul, max_def]
